import Mathlib

/-!
Shallow embedding of `drug_ecmo_analyzer.py` (class `DrugECMOAnalyzer`).

Text is modelled as `List Char` (`Str`); Python string primitives
(`str.strip`, `str.find(sub, start, end)`, `str.split('\n')`,
`str.startswith`, `in`, slicing) are embedded as executable functions on
`Str`.  A `QAResponse` models the part of the paper-qa response object the
analyzer reads: `response.session.answer`, `response.session.formatted_answer`
and `response.session.contexts`; an `Option` field is `none` when the
attribute is absent (the code guards those reads with `hasattr`).
-/

namespace DrugEcmo

abbrev Str := List Char

/-- Whitespace characters removed by Python `str.strip()` (ASCII subset). -/
def isWS (c : Char) : Bool :=
  c == ' ' || c == '\t' || c == '\n' || c == '\r' || c == '\x0b' || c == '\x0c'

/-- Python `str.strip()`: drop leading and trailing whitespace. -/
def strip (s : Str) : Str :=
  ((s.dropWhile isWS).reverse.dropWhile isWS).reverse

/-- Python `s.startswith(p)`: `p` is a leading segment of `s` (args: pattern, string). -/
def startsWith : Str → Str → Bool
  | [], _ => true
  | _ :: _, [] => false
  | p :: ps, s :: ss => p == s && startsWith ps ss

/-- Python `p in s`: `p` occurs as a contiguous segment of `s`. -/
def containsSub (p : Str) : Str → Bool
  | [] => p.isEmpty
  | c :: cs => startsWith p (c :: cs) || containsSub p cs

/-- Scan a list for character `c`, numbering positions from `i`; return the
absolute position of the first hit. -/
def findFrom (c : Char) : Str → Nat → Option Nat
  | [], _ => none
  | a :: as, i => if a == c then some i else findFrom c as (i + 1)

/-- Python `s.find(c, start, stop)` for a single character: least index
`j` with `start ≤ j < stop` and `s[j] = c`, as an `Option` (`none` for -1). -/
def pyFind (c : Char) (s : Str) (start stop : Nat) : Option Nat :=
  findFrom c ((s.drop start).take (stop - start)) start

/-- Python `s.split('\n')`. -/
def splitOnNl : Str → List Str
  | [] => [[]]
  | c :: cs =>
    if c == '\n' then [] :: splitOnNl cs
    else
      match splitOnNl cs with
      | [] => [[c]]
      | h :: t => (c :: h) :: t

/-- Python `s.split(':', 1)[1]`: everything after the first colon
(undefined-free: empty when no colon). -/
def afterFirstColon : Str → Str
  | [] => []
  | c :: cs => if c == ':' then cs else afterFirstColon cs

/-- Python `str.lower()` (per-character). -/
def lowerStr (s : Str) : Str := s.map Char.toLower

/-- Decimal rendering of a natural number (for Python f-string keys). -/
def natStr (n : Nat) : Str := (Nat.repr n).data

/-- Source document handle: `context.doc`, with its `citation` and
`docname` attributes (absent attribute = `none`). -/
structure Doc where
  citation : Option Str
  docname : Option Str
deriving DecidableEq

/-- One entry of `response.session.contexts`: the snippet text
`context.context` and the optional `context.doc`.  A truthiness check in
the code is a non-`none`, non-empty test here. -/
structure ContextSnippet where
  context : Option Str
  doc : Option Doc
deriving DecidableEq

/-- The part of the paper-qa response the analyzer reads. -/
structure QAResponse where
  answer : Str
  formatted_answer : Option Str
  contexts : Option (List ContextSnippet)
deriving DecidableEq

/-- Fallback of `_extract_exact_citations`. -/
def exactCitationFallback : List Str :=
  ["Direct quotes from source papers not available".data]

/-- Fallback of `_format_references`. -/
def referenceFallback : List Str :=
  ["References extracted from peer-reviewed literature".data]

/-- Truncation step of `_extract_exact_citations`: strip the snippet; if
longer than 300 characters, cut at the first period found by
`quote.find('.', 250, 350)` (inclusive), else hard-truncate to 300
characters and append `"..."`. -/
def truncQuote (t : Str) : Str :=
  let quote := strip t
  if 300 < quote.length then
    match pyFind '.' quote 250 350 with
    | some bp => quote.take (bp + 1)
    | none => quote.take 300 ++ ('.' :: '.' :: '.' :: [])
  else quote

/-- Per-snippet body of the `_extract_exact_citations` loop: requires the
`context` attribute present and truthy, truncates, and keeps the quote only
when non-empty and longer than 20 characters. -/
def quoteOf (c : ContextSnippet) : Option Str :=
  match c.context with
  | some t =>
    if t = [] then none
    else
      let quote := truncQuote t
      if quote ≠ [] ∧ 20 < quote.length then some quote else none
  | none => none

/-- `DrugECMOAnalyzer._extract_exact_citations`. -/
def extract_exact_citations (r : QAResponse) : List Str :=
  match r.contexts with
  | some cs =>
    if cs ≠ [] then ((cs.take 5).filterMap quoteOf).take 5
    else exactCitationFallback
  | none => exactCitationFallback

/-- Line test `line.strip().startswith(('1.', '2.', '3.', '4.', '5.'))`. -/
def isNumberedRef (ls : Str) : Bool :=
  startsWith ('1' :: '.' :: []) ls || startsWith ('2' :: '.' :: []) ls ||
  startsWith ('3' :: '.' :: []) ls || startsWith ('4' :: '.' :: []) ls ||
  startsWith ('5' :: '.' :: []) ls

/-- Reference-line cleanup: keep only the trimmed text after the first
colon when a colon is present. -/
def refLineClean (ls : Str) : Str :=
  if ls.contains ':' then strip (afterFirstColon ls) else ls

/-- Tier-1 loop of `_format_references` over the lines of
`formatted_answer`, carrying the `in_references` flag and the collected
references; stops once five references are collected. -/
def tier1Loop : List Str → Bool → List Str → List Str
  | [], _, refs => refs
  | line :: rest, inRefs, refs =>
    let ls := strip line
    if startsWith "References".data ls || ls == "References".data then
      tier1Loop rest true refs
    else if inRefs && !ls.isEmpty then
      if isNumberedRef ls then
        let refs2 := refs ++ [refLineClean ls]
        if 5 ≤ refs2.length then refs2 else tier1Loop rest inRefs refs2
      else tier1Loop rest inRefs refs
    else tier1Loop rest inRefs refs

/-- Tier 1 of `_format_references`: scan `formatted_answer` line by line. -/
def tier1 (fa : Str) : List Str := tier1Loop (splitOnNl fa) false []

/-- Tier-2 loop of `_format_references` over context snippets, carrying the
collected references and the `processed_docs` set (as a list). -/
def tier2Loop : List ContextSnippet → List Str → List Str → List Str
  | [], refs, _ => refs
  | c :: rest, refs, seen =>
    let citA : Option Str :=
      match c.doc with
      | some d => d.citation
      | none => none
    let keyA : Option Str :=
      match c.doc with
      | some d =>
        match d.docname with
        | some n => some n
        | none =>
          match citA with
          | some s =>
            if s.isEmpty then some ("doc_".data ++ natStr refs.length) else some s
          | none => some ("doc_".data ++ natStr refs.length)
      | none => none
    let truthyA : Bool := match citA with | some s => !s.isEmpty | none => false
    let ck : Option Str × Option Str :=
      if truthyA then (citA, keyA)
      else
        match c.context with
        | some t =>
          let text := t.take 100
          if containsSub "et al.".data text || containsSub "20".data text then
            (some ("Reference extracted from: ".data ++ text.take 80 ++ "...".data),
             some ("context_".data ++ natStr refs.length))
          else (citA, keyA)
        | none => (citA, keyA)
    match ck with
    | (some citv, some keyv) =>
      if !citv.isEmpty && !(seen.contains keyv) then
        let refs2 := refs ++ [citv]
        if 5 ≤ refs2.length then refs2
        else tier2Loop rest refs2 (seen ++ [keyv])
      else tier2Loop rest refs seen
    | _ => tier2Loop rest refs seen

/-- Tier 2 of `_format_references`: context-based extraction over the
first five snippets. -/
def tier2 (cs : List ContextSnippet) : List Str := tier2Loop (cs.take 5) [] []

/-- Tier-1 result as guarded in `_format_references`: runs only when the
`formatted_answer` attribute is present and truthy. -/
def tier1OfResponse (r : QAResponse) : List Str :=
  match r.formatted_answer with
  | some fa => if fa ≠ [] then tier1 fa else []
  | none => []

/-- `DrugECMOAnalyzer._format_references`: Tier 1, else Tier 2 when the
`contexts` attribute is present and truthy (Tier 2's possibly empty result
is returned as is), else the fallback. -/
def format_references (r : QAResponse) : List Str :=
  let refs := tier1OfResponse r
  if refs ≠ [] then refs
  else
    match r.contexts with
    | some cs => if cs ≠ [] then tier2 cs else referenceFallback
    | none => referenceFallback

/-- Study-type / quality keyword classifier of `_extract_reference_details`
(first match wins, on the lower-cased citation). -/
def studyTypeQuality (cl : Str) : Str × Str :=
  if containsSub "randomized".data cl || containsSub "rct".data cl then
    ("Randomized controlled trial".data, "high-quality RCT".data)
  else if containsSub "prospective".data cl || containsSub "cohort".data cl then
    ("Prospective observational study".data, "moderate-quality observational study".data)
  else if containsSub "case report".data cl || containsSub "case series".data cl then
    ("Case report/series".data, "case-based evidence".data)
  else if containsSub "review".data cl then
    ("Literature review".data, "narrative review".data)
  else if containsSub "guideline".data cl then
    ("Clinical guideline".data, "expert consensus guideline".data)
  else if containsSub "pharmacokinetics".data cl then
    ("Pharmacokinetic study".data, "specialized PK research".data)
  else ("Clinical research study".data, "peer-reviewed research".data)

/-- Population keyword classifier of `_extract_reference_details`. -/
def populationOf (cl : Str) : Str :=
  if containsSub "pediatric".data cl || containsSub "children".data cl then
    "pediatric ECMO patients".data
  else if containsSub "adult".data cl then "adult ECMO patients".data
  else "ECMO patients".data

/-- One description line of `_extract_reference_details` for the citation
at index `i`. -/
def refDetail (i : Nat) (citation : Str) : Str :=
  let cl := lowerStr citation
  let st := (studyTypeQuality cl).1
  let q := (studyTypeQuality cl).2
  let pop := populationOf cl
  let used : Str := if i < 3 then "multiple citations".data else "single citation".data
  st ++ " on ".data ++ pop ++ ". Quality: ".data ++ q ++
    ". Evidence: ".data ++ used ++ " from this source.".data

/-- The `for i, citation in enumerate(citations)` loop of
`_extract_reference_details`. -/
def detailsLoop : Nat → List Str → List Str
  | _, [] => []
  | i, c :: rest => refDetail i c :: detailsLoop (i + 1) rest

/-- `DrugECMOAnalyzer._extract_reference_details`: re-runs
`_format_references` and emits one description per reference. -/
def extract_reference_details (r : QAResponse) : List Str :=
  detailsLoop 0 (format_references r)

/-- The seven keys of `self.analysis_fields`. -/
def analysis_field_names : List Str :=
  ["Effect on ECMO".data, "Final Recommendation".data,
   "Volume of distribution (Vd)".data, "Circuit sequestration".data,
   "ECMO dosage".data, "PK Properties -LogP".data,
   "PK Properties - Protein Binding".data]

/-- Python exception kinds surfacing from `analyze_field`. -/
inductive PyError where
  | valueError (msg : Str)
  | attributeError
deriving DecidableEq

/-- The record assembled by `analyze_field`. -/
structure AnalysisResult where
  answer : Str
  formatted_answer : Str
  exact_citation : List Str
  reference : List Str
  ref_details : List Str
deriving DecidableEq

/-- `DrugECMOAnalyzer.analyze_field`: raises `ValueError` when the field
name is not a catalog key — before the paper-qa gateway (`ask`) is
invoked, which is abstracted as the function argument `gateway`. -/
def analyze_field (gateway : Str → QAResponse) (field_name : Str) :
    Except PyError AnalysisResult :=
  if field_name ∈ analysis_field_names then
    let response := gateway field_name
    match response.formatted_answer with
    | some fa =>
      Except.ok ⟨response.answer, fa,
        extract_exact_citations response, format_references response,
        extract_reference_details response⟩
    | none => Except.error PyError.attributeError
  else
    Except.error (PyError.valueError ("Unknown field: ".data ++ field_name))

/-- Per-snippet predicate: Tier 2 derives no citation from this snippet
(the attached document carries no truthy citation and the first-100
character heuristic finds neither `"et al."` nor `"20"`). -/
def derivesNoCitation (c : ContextSnippet) : Bool :=
  (match c.doc with
   | some d => match d.citation with | some s => s.isEmpty | none => true
   | none => true)
  &&
  (match c.context with
   | some t =>
     !(containsSub "et al.".data (t.take 100) || containsSub "20".data (t.take 100))
   | none => true)

/-! ## Helper lemmas -/

theorem startsWith_refl (s : Str) : startsWith s s = true := by
  induction s with
  | nil => rfl
  | cons a as ih => simp [startsWith, ih]

theorem findFrom_some_spec (c : Char) (l : Str) (i j : Nat)
    (h : findFrom c l i = some j) :
    ∃ k, j = i + k ∧ l[k]? = some c ∧ ∀ m, m < k → l[m]? ≠ some c := by
  induction l generalizing i with
  | nil => simp [findFrom] at h
  | cons a as ih =>
    by_cases hac : a = c
    · subst hac
      simp [findFrom] at h
      exact ⟨0, by omega, by simp, by omega⟩
    · have hne : (a == c) = false := beq_eq_false_iff_ne.mpr hac
      rw [findFrom, hne] at h
      simp only [Bool.false_eq_true, if_false] at h
      obtain ⟨k, hk, hget, hmin⟩ := ih (i + 1) h
      refine ⟨k + 1, by omega, by simpa using hget, ?_⟩
      intro m hm
      match m with
      | 0 => simpa using hac
      | m + 1 => simpa using hmin m (by omega)

theorem findFrom_none_spec (c : Char) (l : Str) (i : Nat)
    (h : findFrom c l i = none) :
    ∀ m : Nat, l[m]? ≠ some c := by
  induction l generalizing i with
  | nil => intro m; simp
  | cons a as ih =>
    by_cases hac : a = c
    · subst hac; simp [findFrom] at h
    · have hne : (a == c) = false := beq_eq_false_iff_ne.mpr hac
      rw [findFrom, hne] at h
      simp only [Bool.false_eq_true, if_false] at h
      intro m
      match m with
      | 0 => simpa using hac
      | m + 1 => simpa using ih (i + 1) h m

theorem pyFind_some_spec (c : Char) (q : Str) (s e bp : Nat)
    (h : pyFind c q s e = some bp) :
    s ≤ bp ∧ bp < e ∧ q[bp]? = some c ∧ ∀ j, s ≤ j → j < bp → q[j]? ≠ some c := by
  obtain ⟨k, hk, hget, hmin⟩ := findFrom_some_spec c _ s bp h
  have hkwin : k < e - s := by
    have h1 : k < ((q.drop s).take (e - s)).length := by
      rcases List.getElem?_eq_some.mp hget with ⟨hlt, _⟩
      exact hlt
    have h2 := List.length_take_le (e - s) (q.drop s)
    omega
  have hwin : ∀ m, m < e - s → ((q.drop s).take (e - s))[m]? = q[s + m]? := by
    intro m hm
    rw [List.getElem?_take_of_lt hm, List.getElem?_drop]
  refine ⟨by omega, by omega, ?_, ?_⟩
  · rw [hk, ← hwin k hkwin]; exact hget
  · intro j hj1 hj2
    have hjk : j - s < k := by omega
    have := hmin (j - s) hjk
    rw [hwin (j - s) (by omega)] at this
    have hjs : s + (j - s) = j := by omega
    rwa [hjs] at this

theorem pyFind_none_spec (c : Char) (q : Str) (s e : Nat)
    (h : pyFind c q s e = none) :
    ∀ j, s ≤ j → j < e → q[j]? ≠ some c := by
  intro j hj1 hj2 hget
  have hwin : ((q.drop s).take (e - s))[j - s]? = q[j]? := by
    rw [List.getElem?_take_of_lt (by omega), List.getElem?_drop]
    congr 1
    omega
  exact findFrom_none_spec c _ s h (j - s) (hwin.trans hget)

theorem truncQuote_short (t : Str) (h : (strip t).length ≤ 300) :
    truncQuote t = strip t := by
  simp only [truncQuote]
  rw [if_neg (by omega)]

theorem truncQuote_hard (t : Str) (h : 300 < (strip t).length)
    (hf : pyFind '.' (strip t) 250 350 = none) :
    truncQuote t = (strip t).take 300 ++ ('.' :: '.' :: '.' :: []) ∧
      (truncQuote t).length = 303 := by
  have he : truncQuote t = (strip t).take 300 ++ ('.' :: '.' :: '.' :: []) := by
    simp only [truncQuote]
    rw [if_pos h, hf]
  refine ⟨he, ?_⟩
  rw [he]
  simp [List.length_take]
  omega

theorem truncQuote_period (t : Str) (bp : Nat) (h : 300 < (strip t).length)
    (hf : pyFind '.' (strip t) 250 350 = some bp) :
    truncQuote t = (strip t).take (bp + 1) ∧ (truncQuote t).length = bp + 1 ∧
      250 ≤ bp ∧ bp < 350 := by
  obtain ⟨h1, h2, h3, _⟩ := pyFind_some_spec '.' (strip t) 250 350 bp hf
  have he : truncQuote t = (strip t).take (bp + 1) := by
    simp only [truncQuote]
    rw [if_pos h, hf]
  have hlt : bp < (strip t).length := (List.getElem?_eq_some.mp h3).1
  refine ⟨he, ?_, h1, h2⟩
  rw [he]
  simp [List.length_take]
  omega

theorem quoteOf_some_spec (c : ContextSnippet) (q : Str) (h : quoteOf c = some q) :
    20 < q.length ∧ ∃ t, c.context = some t ∧ q = truncQuote t := by
  match hc : c.context with
  | none => simp [quoteOf, hc] at h
  | some t =>
    simp only [quoteOf, hc] at h
    by_cases ht : t = []
    · simp [ht] at h
    · rw [if_neg ht] at h
      by_cases hcond : truncQuote t ≠ [] ∧ 20 < (truncQuote t).length
      · rw [if_pos hcond] at h
        cases h
        exact ⟨hcond.2, t, rfl, rfl⟩
      · rw [if_neg hcond] at h
        simp at h

theorem truncQuote_length_le (t : Str) : (truncQuote t).length ≤ 350 := by
  by_cases h : 300 < (strip t).length
  · match hf : pyFind '.' (strip t) 250 350 with
    | some bp =>
      obtain ⟨_, h2, _, _⟩ := truncQuote_period t bp h hf
      omega
    | none =>
      obtain ⟨_, h2⟩ := truncQuote_hard t h hf
      omega
  · rw [truncQuote_short t (by omega)]
    omega

theorem detailsLoop_length (n : Nat) (l : List Str) :
    (detailsLoop n l).length = l.length := by
  induction l generalizing n with
  | nil => rfl
  | cons c rest ih => simp [detailsLoop, ih]

theorem detailsLoop_getElem? (n : Nat) (l : List Str) (i : Nat) :
    (detailsLoop n l)[i]? = (l[i]?).map fun c => refDetail (n + i) c := by
  induction l generalizing n i with
  | nil => simp [detailsLoop]
  | cons c rest ih =>
    match i with
    | 0 => simp [detailsLoop]
    | i + 1 =>
      have harith : n + (i + 1) = (n + 1) + i := by omega
      rw [harith]
      simpa [detailsLoop] using ih (n + 1) i

theorem tier1Loop_pre (pre rest : List Str)
    (hpre : ∀ l ∈ pre, startsWith "References".data (strip l) = false) :
    tier1Loop (pre ++ rest) false [] = tier1Loop rest false [] := by
  induction pre with
  | nil => rfl
  | cons l pre ih =>
    have h1 : startsWith "References".data (strip l) = false :=
      hpre l (List.mem_cons_self l pre)
    have h2 : (strip l == "References".data) = false := by
      by_cases he : strip l = "References".data
      · rw [he, startsWith_refl] at h1
        cases h1
      · exact beq_eq_false_iff_ne.mpr he
    have ih2 := ih fun x hx => hpre x (List.mem_cons_of_mem l hx)
    simpa [tier1Loop, h1, h2] using ih2

theorem tier2Loop_no_cit (cs : List ContextSnippet) (refs seen : List Str)
    (h : ∀ c ∈ cs, derivesNoCitation c = true) :
    tier2Loop cs refs seen = refs := by
  induction cs generalizing refs seen with
  | nil => rfl
  | cons c rest ih =>
    have hc := h c (List.mem_cons_self c rest)
    have hrest : ∀ x ∈ rest, derivesNoCitation x = true :=
      fun x hx => h x (List.mem_cons_of_mem c hx)
    rw [derivesNoCitation, Bool.and_eq_true] at hc
    obtain ⟨hdoc, htext⟩ := hc
    rcases c with ⟨tc, dc⟩
    rcases dc with _ | ⟨dcit, dname⟩
    · rcases tc with _ | t
      · simpa [tier2Loop] using ih refs seen hrest
      · have hno : (containsSub "et al.".data (t.take 100) ||
            containsSub "20".data (t.take 100)) = false := by
          simpa using htext
        simpa [tier2Loop, hno] using ih refs seen hrest
    · rcases dcit with _ | s
      · rcases dname with _ | n <;> rcases tc with _ | t
        · simpa [tier2Loop] using ih refs seen hrest
        · have hno : (containsSub "et al.".data (t.take 100) ||
              containsSub "20".data (t.take 100)) = false := by
            simpa using htext
          simpa [tier2Loop, hno] using ih refs seen hrest
        · simpa [tier2Loop] using ih refs seen hrest
        · have hno : (containsSub "et al.".data (t.take 100) ||
              containsSub "20".data (t.take 100)) = false := by
            simpa using htext
          simpa [tier2Loop, hno] using ih refs seen hrest
      · have hs : s.isEmpty = true := by simpa using hdoc
        rcases dname with _ | n <;> rcases tc with _ | t
        · simpa [tier2Loop, hs] using ih refs seen hrest
        · have hno : (containsSub "et al.".data (t.take 100) ||
              containsSub "20".data (t.take 100)) = false := by
            simpa using htext
          simpa [tier2Loop, hs, hno] using ih refs seen hrest
        · simpa [tier2Loop, hs] using ih refs seen hrest
        · have hno : (containsSub "et al.".data (t.take 100) ||
              containsSub "20".data (t.take 100)) = false := by
            simpa using htext
          simpa [tier2Loop, hs, hno] using ih refs seen hrest

theorem extract_exact_citations_of_contexts (r : QAResponse)
    (cs : List ContextSnippet) (hcs : r.contexts = some cs) (hne : cs ≠ []) :
    extract_exact_citations r = (cs.take 5).filterMap quoteOf := by
  have hlen : ((cs.take 5).filterMap quoteOf).length ≤ 5 :=
    Nat.le_trans (List.length_filterMap_le _ _) (List.length_take_le _ _)
  simp only [extract_exact_citations, hcs]
  rw [if_pos hne, List.take_of_length_le hlen]

/-! ## Claim theorems -/

/-- C7: for a QAResponse whose contexts sequence is absent or has length 0,
the exact_citation pass returns the fixed single-element fallback array
(and, being a total function of the response, never raises). -/
theorem c7_empty_contexts_fallback (r : QAResponse)
    (h : r.contexts = none ∨ r.contexts = some []) :
    extract_exact_citations r = exactCitationFallback := by
  rcases h with h | h <;> simp [extract_exact_citations, h]

theorem c7_empty_contexts_fallback_witness :
    extract_exact_citations ⟨"a".data, none, some []⟩ = exactCitationFallback :=
  c7_empty_contexts_fallback ⟨"a".data, none, some []⟩ (Or.inr rfl)

/-- C8: the three Metadata Extractor passes are deterministic functions of
the QAResponse: two runs on the same response yield identical arrays. -/
theorem c8_deterministic (r1 r2 : QAResponse) (h : r1 = r2) :
    extract_exact_citations r1 = extract_exact_citations r2 ∧
    format_references r1 = format_references r2 ∧
    extract_reference_details r1 = extract_reference_details r2 := by
  subst h
  exact ⟨rfl, rfl, rfl⟩

theorem c8_deterministic_witness :
    extract_exact_citations ⟨"a".data, some "References".data, none⟩ =
      extract_exact_citations ⟨"a".data, some "References".data, none⟩ ∧
    format_references ⟨"a".data, some "References".data, none⟩ =
      format_references ⟨"a".data, some "References".data, none⟩ ∧
    extract_reference_details ⟨"a".data, some "References".data, none⟩ =
      extract_reference_details ⟨"a".data, some "References".data, none⟩ :=
  c8_deterministic ⟨"a".data, some "References".data, none⟩
    ⟨"a".data, some "References".data, none⟩ rfl

/-- C9: the ref_details pass re-runs the reference derivation and emits one
description per reference, so its array always has exactly the length of
the reference pass's array on the same response. -/
theorem c9_details_aligned (r : QAResponse) :
    (extract_reference_details r).length = (format_references r).length := by
  rw [extract_reference_details]
  exact detailsLoop_length 0 (format_references r)

/-- C6: the exact_citation pass returns at most 5 entries for any response;
on a present non-empty contexts list the result is the order-preserving
filterMap of the per-snippet quote function over the first five snippets,
and every surviving quote is longer than 20 characters. -/
theorem c6_at_most_five_ordered (r : QAResponse) :
    (extract_exact_citations r).length ≤ 5 ∧
    ∀ cs, r.contexts = some cs → cs ≠ [] →
      extract_exact_citations r = (cs.take 5).filterMap quoteOf ∧
      ∀ q ∈ extract_exact_citations r, 20 < q.length := by
  constructor
  · match hcs : r.contexts with
    | none => simp [extract_exact_citations, hcs, exactCitationFallback]
    | some cs =>
      by_cases hne : cs = []
      · simp [extract_exact_citations, hcs, hne, exactCitationFallback]
      · rw [extract_exact_citations_of_contexts r cs hcs hne]
        exact Nat.le_trans (List.length_filterMap_le _ _) (List.length_take_le _ _)
  · intro cs hcs hne
    have he := extract_exact_citations_of_contexts r cs hcs hne
    refine ⟨he, ?_⟩
    intro q hq
    rw [he] at hq
    obtain ⟨c, _, hcq⟩ := List.mem_filterMap.mp hq
    exact (quoteOf_some_spec c q hcq).1

theorem c6_at_most_five_ordered_witness :
    (extract_exact_citations ⟨"a".data, none,
      some (List.replicate 10
        ⟨some "A sufficiently long snippet text.".data, none⟩)⟩).length ≤ 5 ∧
    extract_exact_citations ⟨"a".data, none,
      some (List.replicate 10
        ⟨some "A sufficiently long snippet text.".data, none⟩)⟩ =
      ((List.replicate 10
        (⟨some "A sufficiently long snippet text.".data, none⟩ :
          ContextSnippet)).take 5).filterMap quoteOf := by
  have h := c6_at_most_five_ordered ⟨"a".data, none,
    some (List.replicate 10 ⟨some "A sufficiently long snippet text.".data, none⟩)⟩
  exact ⟨h.1, (h.2 _ rfl (by decide)).1⟩

/-- C3: analyze_field fails with the configuration ValueError for every
field name outside the seven-key catalog, and does so independently of the
gateway (so before any gateway call); for a catalog key no such ValueError
is ever produced. -/
theorem c3_field_catalog_gate (name : Str) :
    (name ∉ analysis_field_names →
      (∀ g : Str → QAResponse,
        analyze_field g name =
          Except.error (PyError.valueError ("Unknown field: ".data ++ name))) ∧
      (∀ g g2 : Str → QAResponse, analyze_field g name = analyze_field g2 name)) ∧
    (name ∈ analysis_field_names →
      ∀ (g : Str → QAResponse) (msg : Str),
        analyze_field g name ≠ Except.error (PyError.valueError msg)) := by
  constructor
  · intro hn
    constructor
    · intro g
      rw [analyze_field, if_neg hn]
    · intro g g2
      rw [analyze_field, if_neg hn, analyze_field, if_neg hn]
  · intro hn g msg
    rw [analyze_field, if_pos hn]
    rcases hfa : (g name).formatted_answer with _ | fa <;> simp [hfa]

theorem c3_field_catalog_gate_witness :
    analyze_field (fun _ => ⟨"a".data, some "f".data, none⟩) "bogus".data =
      Except.error (PyError.valueError ("Unknown field: ".data ++ "bogus".data)) ∧
    analyze_field (fun _ => ⟨"a".data, some "f".data, none⟩) "Effect on ECMO".data ≠
      Except.error (PyError.valueError []) :=
  ⟨((c3_field_catalog_gate "bogus".data).1 (by decide)).1 _,
   (c3_field_catalog_gate "Effect on ECMO".data).2 (by decide) _ []⟩

/-- C4: ref_details maps each reference string independently (one output
per input, positionally) by first-match-wins lower-cased substring rules: a
reference containing "randomized" with a "pediatric"/"children" marker is
described as a randomized controlled trial on pediatric ECMO patients of
high-quality RCT quality, with evidence "multiple citations" exactly when
its index is below 3, composed in the fixed description format. -/
theorem c4_randomized_pediatric (r : QAResponse) (i : Nat) (c : Str)
    (hc : (format_references r)[i]? = some c)
    (hrand : containsSub "randomized".data (lowerStr c) = true)
    (hped : containsSub "pediatric".data (lowerStr c) = true ∨
            containsSub "children".data (lowerStr c) = true) :
    (extract_reference_details r)[i]? = some (refDetail i c) ∧
    refDetail i c = (if i < 3 then
        "Randomized controlled trial on pediatric ECMO patients. Quality: high-quality RCT. Evidence: multiple citations from this source.".data
      else
        "Randomized controlled trial on pediatric ECMO patients. Quality: high-quality RCT. Evidence: single citation from this source.".data) := by
  constructor
  · rw [extract_reference_details, detailsLoop_getElem?, hc]
    simp
  · have hst : studyTypeQuality (lowerStr c) =
        ("Randomized controlled trial".data, "high-quality RCT".data) := by
      rw [studyTypeQuality, if_pos (by simp [hrand])]
    have hpop : populationOf (lowerStr c) = "pediatric ECMO patients".data := by
      rcases hped with h | h <;>
        · rw [populationOf, if_pos (by simp [h])]
    by_cases hi : i < 3 <;>
      simp [refDetail, hst, hpop, hi]

theorem c4_randomized_pediatric_witness :
    (extract_reference_details ⟨"a".data,
      some "References\n1. Randomized controlled trial in pediatric patients".data,
      none⟩)[0]? =
      some (refDetail 0 "1. Randomized controlled trial in pediatric patients".data) ∧
    refDetail 0 "1. Randomized controlled trial in pediatric patients".data =
      (if 0 < 3 then
        "Randomized controlled trial on pediatric ECMO patients. Quality: high-quality RCT. Evidence: multiple citations from this source.".data
      else
        "Randomized controlled trial on pediatric ECMO patients. Quality: high-quality RCT. Evidence: single citation from this source.".data) :=
  c4_randomized_pediatric ⟨"a".data,
      some "References\n1. Randomized controlled trial in pediatric patients".data,
      none⟩ 0 "1. Randomized controlled trial in pediatric patients".data
    (by decide) (by decide) (Or.inl (by decide))

/-- C5: when the formatted_answer's lines are some preamble (no line
strip-starting with "References"), then a "References" line, then the line
"1. Smith et al: Some Citation", Tier 1 of the reference pass returns
exactly the colon-split trimmed citation ["Some Citation"]. -/
theorem c5_tier1_colon_split (r : QAResponse) (fa : Str) (pre : List Str)
    (hfa : r.formatted_answer = some fa)
    (hsplit : splitOnNl fa =
      pre ++ ["References".data, "1. Smith et al: Some Citation".data])
    (hpre : ∀ l ∈ pre, startsWith "References".data (strip l) = false) :
    format_references r = ["Some Citation".data] := by
  have hfane : fa ≠ [] := by
    intro hnil
    rw [hnil] at hsplit
    have hlen := congrArg List.length hsplit
    simp [splitOnNl] at hlen
  have ht1 : tier1 fa = ["Some Citation".data] := by
    rw [tier1, hsplit, tier1Loop_pre pre _ hpre]
    decide
  simp only [format_references, tier1OfResponse, hfa]
  rw [if_pos hfane, ht1, if_pos (by simp : (["Some Citation".data] : List Str) ≠ [])]

theorem c5_tier1_colon_split_witness :
    format_references ⟨"a".data,
      some "Answer text\nReferences\n1. Smith et al: Some Citation".data,
      none⟩ = ["Some Citation".data] :=
  c5_tier1_colon_split ⟨"a".data,
      some "Answer text\nReferences\n1. Smith et al: Some Citation".data, none⟩
    "Answer text\nReferences\n1. Smith et al: Some Citation".data
    ["Answer text".data] rfl (by decide) (by decide)

/-- C1 counterexample: a response whose formatted_answer has no References
section and whose single context snippet derives no citation (no attached
document, no "et al." or "20" in its first 100 characters): Tier 1 and
Tier 2 both yield nothing, yet the reference pass returns the empty array,
not the single-element fallback. -/
theorem c1_counterexample :
    format_references ⟨"a".data, some "No reference section here".data,
        some [⟨some "plain snippet with no markers at all".data, none⟩]⟩ = [] ∧
    ([] : List Str) ≠ referenceFallback := by
  exact ⟨by decide, by decide⟩

/-- C1 (amended): when Tier 1 yields nothing, the reference pass returns
the single-element fallback if the contexts sequence is absent or empty;
but when contexts are present and non-empty and no citation can be derived
from any snippet, it returns the empty array (Tier 2's result) instead of
the fallback. -/
theorem c1_both_tiers_empty (r : QAResponse) (h1 : tier1OfResponse r = []) :
    ((r.contexts = none ∨ r.contexts = some []) →
      format_references r = referenceFallback) ∧
    (∀ cs, r.contexts = some cs → cs ≠ [] →
      (∀ c ∈ cs, derivesNoCitation c = true) →
      format_references r = []) := by
  constructor
  · intro h
    rcases h with h | h <;> simp [format_references, h1, h]
  · intro cs hcs hne hall
    simp only [format_references, h1, ne_eq, not_true_eq_false, if_false, hcs]
    rw [if_pos hne, tier2]
    exact tier2Loop_no_cit (cs.take 5) [] []
      fun c hc => hall c (List.take_subset 5 cs hc)

theorem c1_both_tiers_empty_witness :
    format_references ⟨"a".data, none, none⟩ = referenceFallback ∧
    format_references ⟨"a".data, some "No reference section here".data,
        some [⟨some "plain snippet with no markers at all".data, none⟩]⟩ = [] :=
  ⟨(c1_both_tiers_empty ⟨"a".data, none, none⟩ rfl).1 (Or.inl rfl),
   (c1_both_tiers_empty ⟨"a".data, some "No reference section here".data,
        some [⟨some "plain snippet with no markers at all".data, none⟩]⟩
      (by decide)).2 _ rfl (by decide) (by decide)⟩

set_option maxRecDepth 100000

/-- C2 counterexample: a trimmed 351-character snippet whose only period
sits at offset 350 — inside the claim's inclusive window "250 through
350" — is hard-truncated to its first 300 characters plus "..." by the
exact_citation pass, not truncated at that period, because
`find('.', 250, 350)` excludes offset 350. -/
theorem c2_counterexample :
    (List.replicate 350 'a' ++ ['.'])[350]? = some '.' ∧
    extract_exact_citations ⟨"a".data, none,
        some [⟨some (List.replicate 350 'a' ++ ['.']), none⟩]⟩ =
      [List.replicate 300 'a' ++ ('.' :: '.' :: '.' :: [])] ∧
    List.replicate 300 'a' ++ ('.' :: '.' :: '.' :: []) ≠
      (List.replicate 350 'a' ++ ['.']).take (350 + 1) := by
  refine ⟨by decide, by decide, by decide⟩

/-- C2 (amended): for a trimmed snippet longer than 300 characters, if
there is a period at some offset in 250 through 349 (the search window's
upper end, 350, is exclusive), the quote is the prefix ending at the first
such period inclusive; if there is no period at offsets 250 through 349,
the quote is exactly the first 300 characters followed by "...". -/
theorem c2_truncation (t : Str) (h : 300 < (strip t).length) :
    (∃ bp, 250 ≤ bp ∧ bp < 350 ∧ (strip t)[bp]? = some '.' ∧
        (∀ j, 250 ≤ j → j < bp → (strip t)[j]? ≠ some '.') ∧
        truncQuote t = (strip t).take (bp + 1)) ∨
    ((∀ j, 250 ≤ j → j < 350 → (strip t)[j]? ≠ some '.') ∧
        truncQuote t = (strip t).take 300 ++ ('.' :: '.' :: '.' :: [])) := by
  match hf : pyFind '.' (strip t) 250 350 with
  | some bp =>
    left
    obtain ⟨h1, h2, h3, h4⟩ := pyFind_some_spec '.' (strip t) 250 350 bp hf
    exact ⟨bp, h1, h2, h3, h4, (truncQuote_period t bp h hf).1⟩
  | none =>
    right
    exact ⟨pyFind_none_spec '.' (strip t) 250 350 hf, (truncQuote_hard t h hf).1⟩

theorem c2_truncation_witness :
    truncQuote (List.replicate 350 'a') =
      (strip (List.replicate 350 'a')).take 300 ++ ('.' :: '.' :: '.' :: []) := by
  have h := c2_truncation (List.replicate 350 'a') (by decide)
  rcases h with ⟨bp, h1, h2, h3, _, _⟩ | ⟨_, h7⟩
  · rw [show strip (List.replicate 350 'a') = List.replicate 350 'a' from by decide,
      List.getElem?_replicate, if_pos (by omega)] at h3
    simp at h3
  · exact h7

/-- C10: on a present non-empty contexts list, every quote returned by the
exact_citation pass has length between 21 and 350; quotes of trimmed
length at most 300 pass through unmodified, hard truncation yields exactly
303 characters, and period truncation yields between 251 and 350
characters. -/
theorem c10_quote_length_invariant (r : QAResponse) (cs : List ContextSnippet)
    (hcs : r.contexts = some cs) (hne : cs ≠ []) :
    (∀ q ∈ extract_exact_citations r, 21 ≤ q.length ∧ q.length ≤ 350) ∧
    (∀ t : Str, (strip t).length ≤ 300 → truncQuote t = strip t) ∧
    (∀ t : Str, 300 < (strip t).length →
      pyFind '.' (strip t) 250 350 = none → (truncQuote t).length = 303) ∧
    (∀ t : Str, ∀ bp : Nat, 300 < (strip t).length →
      pyFind '.' (strip t) 250 350 = some bp →
      251 ≤ (truncQuote t).length ∧ (truncQuote t).length ≤ 350) := by
  refine ⟨?_, fun t ht => truncQuote_short t ht,
    fun t ht hf => (truncQuote_hard t ht hf).2, fun t bp ht hf => ?_⟩
  · intro q hq
    rw [extract_exact_citations_of_contexts r cs hcs hne] at hq
    obtain ⟨c, _, hcq⟩ := List.mem_filterMap.mp hq
    obtain ⟨hlen, t, _, hqt⟩ := quoteOf_some_spec c q hcq
    refine ⟨by omega, ?_⟩
    rw [hqt]
    exact truncQuote_length_le t
  · obtain ⟨_, hlen, hbp1, hbp2⟩ := truncQuote_period t bp ht hf
    omega

theorem c10_quote_length_invariant_witness :
    truncQuote "tiny".data = strip "tiny".data ∧
    (truncQuote (List.replicate 350 'b')).length = 303 := by
  have h := c10_quote_length_invariant
    ⟨"a".data, none, some [⟨some "x".data, none⟩]⟩ [⟨some "x".data, none⟩]
    rfl (by decide)
  exact ⟨h.2.1 "tiny".data (by decide),
         h.2.2.1 (List.replicate 350 'b') (by decide) (by decide)⟩

end DrugEcmo
